import Mathlib

/-!
Verification of the LYRN file-based coordination core.

This file gives a shallow embedding of the coordination layer of the
repository (scheduler store, job queue, file lock, cycle watcher/manager,
delta manager, episodic memory, verbatim memory watcher) and proves or
refutes the frozen specification claims about it.

File-system effects are made explicit: on-disk JSON stores become values
of inductive types, `datetime` values become integers (only their total
order is used by the code under verification), and each Python function
is translated into a pure Lean function on those values.
-/

namespace LYRN

/-! ## Python string primitives shared by several components -/

/-- Python `str.strip()` whitespace set (the ASCII part used by this code). -/
def pyIsSpace (c : Char) : Bool :=
  c = ' ' || c = '\t' || c = '\n' || c = '\r' || c = '\x0c' || c = '\x0b'

/-- Drop leading Python whitespace from a character list. -/
def dropLeadingWs (cs : List Char) : List Char :=
  cs.dropWhile pyIsSpace

/-- Drop trailing Python whitespace from a character list. -/
def dropTrailingWs (cs : List Char) : List Char :=
  (cs.reverse.dropWhile pyIsSpace).reverse

/-- Python `str.strip()` on a character list. -/
def pyStrip (cs : List Char) : List Char :=
  dropTrailingWs (dropLeadingWs cs)

/-- Python `str.upper()` for the ASCII strings used in this code. -/
def pyUpper (s : String) : String :=
  String.mk (s.data.map Char.toUpper)

/-! ## SchedulerManager (src/automation/scheduler_manager.py)

A `Schedule` is the `{id, job_name, scheduled_datetime_iso}` record; the
code only ever compares `scheduled_datetime` values with `<=`, so the
parsed datetime is embedded as an integer timestamp. -/

structure Schedule where
  id : String
  job_name : String
  /-- `scheduled_datetime` as a point on the (totally ordered) time line. -/
  sched : Int
  deriving DecidableEq, Repr

/-- `SchedulerManager.get_and_remove_due_schedules`: one lock-protected
pass over the store, partitioning entries by `scheduled_datetime <= now`;
returns `(due entries, store contents after the call)`.  The write-back
only happens when some entry was due (the code path `if due_schedules:`);
when nothing is due the file is left untouched. -/
def get_and_remove_due_schedules (now : Int) (store : List Schedule) :
    List Schedule × List Schedule :=
  if store.isEmpty then ([], store)
  else
    let part := store.partition (fun s => s.sched ≤ now)
    if part.1.isEmpty then (part.1, store) else (part.1, part.2)

theorem filter_not_le_eq_filter_lt (now : Int) (store : List Schedule) :
    store.filter (fun s => !decide (s.sched ≤ now)) =
      store.filter (fun s => now < s.sched) := by
  apply List.filter_congr
  intro s _
  by_cases h : s.sched ≤ now
  · simp [h, not_lt.mpr h]
  · simp [h, not_le.mp h]

/-- C1: on a store holding at least one due entry (`sched ≤ now`) and at
least one non-due entry, `get_and_remove_due_schedules` returns exactly the
due entries and writes back exactly the non-due ones; the two lists
partition the original store (no loss, no duplication, no overlap). -/
theorem get_and_remove_due_schedules_partitions
    (now : Int) (store : List Schedule)
    (h1 : ∃ e ∈ store, e.sched ≤ now)
    (h2 : ∃ e ∈ store, now < e.sched) :
    (get_and_remove_due_schedules now store).1 =
        store.filter (fun s => s.sched ≤ now) ∧
    (get_and_remove_due_schedules now store).2 =
        store.filter (fun s => now < s.sched) ∧
    ((get_and_remove_due_schedules now store).1 ++
        (get_and_remove_due_schedules now store).2).Perm store ∧
    ∀ e, e ∈ (get_and_remove_due_schedules now store).1 →
        e ∉ (get_and_remove_due_schedules now store).2 := by
  obtain ⟨e1, he1, hd1⟩ := h1
  have hne : ¬ store.isEmpty := by
    cases store with
    | nil => cases he1
    | cons a l => simp [List.isEmpty]
  have hdue : ¬ (store.filter (fun s => decide (s.sched ≤ now))).isEmpty := by
    have : e1 ∈ store.filter (fun s => decide (s.sched ≤ now)) := by
      rw [List.mem_filter]; exact ⟨he1, by simpa using hd1⟩
    intro hcon
    rw [List.isEmpty_iff] at hcon
    rw [hcon] at this
    cases this
  have hresult : get_and_remove_due_schedules now store =
      (store.filter (fun s => decide (s.sched ≤ now)),
       store.filter (fun s => !decide (s.sched ≤ now))) := by
    unfold get_and_remove_due_schedules
    rw [if_neg hne]
    simp only [List.partition_eq_filter_filter, Function.comp]
    rw [if_neg hdue]
    rfl
  rw [hresult]
  refine ⟨by simp, ?_, ?_, ?_⟩
  · exact filter_not_le_eq_filter_lt now store
  · exact List.filter_append_perm _ store
  · intro e hin hin2
    rw [List.mem_filter] at hin hin2
    have := hin.2
    have := hin2.2
    simp at *
    omega

/-- Witness for C1 at a concrete two-entry store. -/
theorem get_and_remove_due_schedules_partitions_witness :
    (∃ e ∈ [Schedule.mk "a" "j1" 0, Schedule.mk "b" "j2" 10], e.sched ≤ 5) ∧
    (∃ e ∈ [Schedule.mk "a" "j1" 0, Schedule.mk "b" "j2" 10], (5:Int) < e.sched) ∧
    ((get_and_remove_due_schedules 5
        [Schedule.mk "a" "j1" 0, Schedule.mk "b" "j2" 10]).1 =
      [Schedule.mk "a" "j1" 0, Schedule.mk "b" "j2" 10].filter
        (fun s => s.sched ≤ 5) ∧
     (get_and_remove_due_schedules 5
        [Schedule.mk "a" "j1" 0, Schedule.mk "b" "j2" 10]).2 =
      [Schedule.mk "a" "j1" 0, Schedule.mk "b" "j2" 10].filter
        (fun s => (5:Int) < s.sched) ∧
     ((get_and_remove_due_schedules 5
        [Schedule.mk "a" "j1" 0, Schedule.mk "b" "j2" 10]).1 ++
      (get_and_remove_due_schedules 5
        [Schedule.mk "a" "j1" 0, Schedule.mk "b" "j2" 10]).2).Perm
        [Schedule.mk "a" "j1" 0, Schedule.mk "b" "j2" 10] ∧
     ∀ e, e ∈ (get_and_remove_due_schedules 5
        [Schedule.mk "a" "j1" 0, Schedule.mk "b" "j2" 10]).1 →
        e ∉ (get_and_remove_due_schedules 5
        [Schedule.mk "a" "j1" 0, Schedule.mk "b" "j2" 10]).2) :=
  ⟨by decide, by decide,
   get_and_remove_due_schedules_partitions 5 _ (by decide) (by decide)⟩

/-! ## AutomationController (src/automation_controller.py)

The job queue is a JSON list of `{name, priority, when, args}` records.
Python dicts are embedded as association lists (insertion-ordered, unique
keys, first-match lookup); `args` values appear in the code only through
`str(value)`, so they are embedded as the strings they render to. -/

/-- First-match association-list lookup, the embedding of `dict[key]` /
`key in dict`. -/
def lookup {α : Type} (k : String) : List (String × α) → Option α
  | [] => none
  | (k', v) :: rest => if k = k' then some v else lookup k rest

/-- A queued job record in `job_queue.json`. -/
structure QueuedJob where
  name : String
  priority : Int
  whenField : String
  args : List (String × String)
  deriving DecidableEq, Repr

/-- A job definition from `jobs.json`. -/
structure JobDef where
  instructions : String
  trigger : String
  deriving DecidableEq, Repr

/-- The resolved `Job` dataclass returned by `get_next_job`. -/
structure Job where
  name : String
  priority : Int
  whenField : String
  args : List (String × String)
  prompt : String
  deriving DecidableEq, Repr

/-- The exception kinds caught by the store readers:
`json.JSONDecodeError` and `IOError`. -/
inductive PyExc where
  | jsonDecode
  | ioError
  deriving DecidableEq, Repr

/-- State of a persisted JSON store file on disk: absent, or present with
raw text content (whose JSON parse may fail). -/
inductive StoreFile (α : Type) where
  | absent
  | present (raw : String) (parsed : Except PyExc α)

/-- Body of the `try:` block in `_read_queue_store` /
`_read_schedules_store`: when the file exists and `st_size > 0`,
`json.load` runs and may raise; otherwise the default is produced. -/
def read_store_try {α : Type} (default : α) : StoreFile α → Except PyExc α
  | .absent => .ok default
  | .present raw parsed => if raw.length > 0 then parsed else .ok default

/-- `AutomationController._read_queue_unsafe` (renamed here): the `try` body with
`except (json.JSONDecodeError, IOError)` degrading to the empty list. -/
def _read_queue_store (f : StoreFile (List QueuedJob)) : List QueuedJob :=
  match read_store_try [] f with
  | .ok v => v
  | .error _ => []

/-- `SchedulerManager._read_schedules_unsafe` (renamed here): textually the same
read-with-self-heal pattern over the schedule store. -/
def _read_schedules_store (f : StoreFile (List Schedule)) : List Schedule :=
  match read_store_try [] f with
  | .ok v => v
  | .error _ => []

/-- `AutomationController.add_job`: refuses names missing from the loaded
job definitions, otherwise appends the new record to the queue list. -/
def add_job (defs : List (String × JobDef)) (queue : List QueuedJob)
    (name : String) (priority : Int := 100) (whenField : String := "now")
    (args : List (String × String) := []) : List QueuedJob :=
  match lookup name defs with
  | none => queue
  | some _ => queue ++ [⟨name, priority, whenField, args⟩]

/-- `AutomationController.get_job_instructions_prompt`: substitutes each
`{key}` placeholder with `str(args[key])` and wraps the instructions in the
`###JOB_START: NAME###` / `###_END###` envelope; `None` for undefined
jobs. -/
def get_job_instructions_prompt (defs : List (String × JobDef))
    (name : String) (args : List (String × String)) : Option String :=
  match lookup name defs with
  | none => none
  | some jd =>
    let instr := args.foldl
      (fun acc kv => acc.replace ("\x7b" ++ kv.1 ++ "\x7d") kv.2)
      jd.instructions
    some ("###JOB_START: " ++ pyUpper name ++ "###\n" ++ instr ++ "\n###_END###")

/-- `AutomationController.get_next_job`: pops index 0 and rewrites the
queue file (inside the lock), then resolves the prompt; a falsy prompt
(undefined job) yields `None` with the entry already consumed.  Returns
`(returned job, queue contents after the call)`. -/
def get_next_job (defs : List (String × JobDef)) (queue : List QueuedJob) :
    Option Job × List QueuedJob :=
  match queue with
  | [] => (none, queue)
  | j :: rest =>
    match get_job_instructions_prompt defs j.name j.args with
    | none => (none, rest)
    | some p =>
      if p = "" then (none, rest)
      else (some ⟨j.name, j.priority, j.whenField, j.args, p⟩, rest)

/-- C8: reading a persisted JSON store self-heals: an absent file, an
empty file, and a file whose JSON parse raises all produce the empty
default list, for both the job queue and the schedule store; the catch of
`json.JSONDecodeError` / `IOError` means no exception reaches the
caller (the readers are total functions into plain lists). -/
theorem read_unsafe_self_heals :
    (∀ (raw : String) (e : PyExc),
        _read_queue_store (.present raw (.error e)) = []) ∧
    (∀ parsed, _read_queue_store (.present "" parsed) = []) ∧
    (_read_queue_store .absent = []) ∧
    (∀ (raw : String) (e : PyExc),
        _read_schedules_store (.present raw (.error e)) = []) ∧
    (∀ parsed, _read_schedules_store (.present "" parsed) = []) ∧
    (_read_schedules_store .absent = []) := by
  refine ⟨?_, ?_, rfl, ?_, ?_, rfl⟩ <;>
    first
  | (intro raw e
     by_cases hlen : raw.length > 0 <;>
       simp [_read_queue_store, _read_schedules_store, read_store_try, hlen])
  | (intro parsed
     simp [_read_queue_store, _read_schedules_store, read_store_try])

/-- C10: when the front queue entry names a job that is not among the
loaded definitions, `get_next_job` consumes the entry (the queue is
rewritten without it before prompt rendering) and returns `None`; the
entry is neither returned nor re-queued. -/
theorem get_next_job_drops_undefined_front
    (defs : List (String × JobDef)) (j : QueuedJob) (rest : List QueuedJob)
    (h : lookup j.name defs = none) :
    get_next_job defs (j :: rest) = (none, rest) := by
  simp [get_next_job, get_job_instructions_prompt, h]

/-- Witness for C10: an undefined job "X" at the front of the queue is
silently dropped. -/
theorem get_next_job_drops_undefined_front_witness :
    lookup (QueuedJob.mk "X" 100 "now" []).name ([] : List (String × JobDef))
        = none ∧
    get_next_job [] [QueuedJob.mk "X" 100 "now" []] = (none, []) :=
  ⟨rfl, get_next_job_drops_undefined_front [] (QueuedJob.mk "X" 100 "now" []) []
    rfl⟩

/-- The catalog used by the C2 scenario: jobs "A", "B", "C" defined. -/
def defsABC : List (String × JobDef) :=
  [("A", ⟨"ia", "ta"⟩), ("B", ⟨"ib", "tb"⟩), ("C", ⟨"ic", "tc"⟩)]

/-- A stale queue entry already present before the C2 scenario starts. -/
def staleX : QueuedJob := ⟨"X", 100, "now", []⟩

/-- C2 counterexample: from the initial queue `[X]` (an entry already in
the store), enqueuing A, B, C and dequeuing once does not return A — the
first `get_next_job` consumes the stale front entry `X` (returning `None`
here since "X" is undefined), so the claim fails for this initial queue
state. -/
theorem queue_fifo_fails_on_nonempty_initial_queue :
    ¬ ∃ jb, (get_next_job defsABC
        (add_job defsABC (add_job defsABC (add_job defsABC [staleX] "A") "B")
          "C")).1 = some jb ∧ jb.name = "A" := by
  have hres : (get_next_job defsABC
      (add_job defsABC (add_job defsABC (add_job defsABC [staleX] "A") "B")
        "C")).1 = none := by decide
  rintro ⟨jb, hjb, -⟩
  rw [hres] at hjb
  cases hjb

theorem prompt_of_defined (defs : List (String × JobDef)) (name : String)
    (args : List (String × String)) (jd : JobDef)
    (h : lookup name defs = some jd) :
    ∃ p, get_job_instructions_prompt defs name args = some p ∧ p ≠ "" := by
  simp only [get_job_instructions_prompt, h]
  refine ⟨_, rfl, ?_⟩
  intro hcon
  have hd := congrArg String.data hcon
  simp [String.data_append] at hd

theorem get_next_job_cons_defined (defs : List (String × JobDef))
    (j : QueuedJob) (rest : List QueuedJob) (jd : JobDef)
    (h : lookup j.name defs = some jd) :
    ∃ jb, get_next_job defs (j :: rest) = (some jb, rest) ∧ jb.name = j.name := by
  obtain ⟨p, hp, hpne⟩ := prompt_of_defined defs j.name j.args jd h
  refine ⟨⟨j.name, j.priority, j.whenField, j.args, p⟩, ?_, rfl⟩
  simp [get_next_job, hp, hpne]

/-- C2 amended: starting from the *empty* queue, enqueueing defined jobs
A, B, C and dequeuing three times yields jobs named A, then B, then C,
and the queue is empty afterwards (each entry consumed exactly once). -/
theorem queue_fifo_from_empty (defs : List (String × JobDef))
    (a b c : String) (da db dc : JobDef)
    (ha : lookup a defs = some da) (hb : lookup b defs = some db)
    (hc : lookup c defs = some dc) :
    let q3 := add_job defs (add_job defs (add_job defs [] a) b) c
    let r1 := get_next_job defs q3
    let r2 := get_next_job defs r1.2
    let r3 := get_next_job defs r2.2
    (∃ j1, r1.1 = some j1 ∧ j1.name = a) ∧
    (∃ j2, r2.1 = some j2 ∧ j2.name = b) ∧
    (∃ j3, r3.1 = some j3 ∧ j3.name = c) ∧
    r3.2 = [] := by
  intro q3 r1 r2 r3
  have hq3 : q3 = [⟨a, 100, "now", []⟩, ⟨b, 100, "now", []⟩,
      ⟨c, 100, "now", []⟩] := by
    simp [q3, add_job, ha, hb, hc]
  obtain ⟨j1, hr1, hn1⟩ :=
    get_next_job_cons_defined defs ⟨a, 100, "now", []⟩
      [⟨b, 100, "now", []⟩, ⟨c, 100, "now", []⟩] da ha
  obtain ⟨j2, hr2, hn2⟩ :=
    get_next_job_cons_defined defs ⟨b, 100, "now", []⟩
      [⟨c, 100, "now", []⟩] db hb
  obtain ⟨j3, hr3, hn3⟩ :=
    get_next_job_cons_defined defs ⟨c, 100, "now", []⟩ [] dc hc
  have e1 : r1 = (some j1, [⟨b, 100, "now", []⟩, ⟨c, 100, "now", []⟩]) := by
    rw [show r1 = get_next_job defs q3 from rfl, hq3]; exact hr1
  have e2 : r2 = (some j2, [⟨c, 100, "now", []⟩]) := by
    rw [show r2 = get_next_job defs r1.2 from rfl, e1]; exact hr2
  have e3 : r3 = (some j3, []) := by
    rw [show r3 = get_next_job defs r2.2 from rfl, e2]; exact hr3
  exact ⟨⟨j1, by rw [e1], hn1⟩, ⟨j2, by rw [e2], hn2⟩,
    ⟨j3, by rw [e3], hn3⟩, by rw [e3]⟩

/-- Witness for C2 amended: the concrete catalog `defsABC` and empty
initial queue. -/
theorem queue_fifo_from_empty_witness :
    (lookup "A" defsABC = some ⟨"ia", "ta"⟩ ∧
     lookup "B" defsABC = some ⟨"ib", "tb"⟩ ∧
     lookup "C" defsABC = some ⟨"ic", "tc"⟩) ∧
    (let q3 := add_job defsABC
        (add_job defsABC (add_job defsABC [] "A") "B") "C"
     let r1 := get_next_job defsABC q3
     let r2 := get_next_job defsABC r1.2
     let r3 := get_next_job defsABC r2.2
     (∃ j1, r1.1 = some j1 ∧ j1.name = "A") ∧
     (∃ j2, r2.1 = some j2 ∧ j2.name = "B") ∧
     (∃ j3, r3.1 = some j3 ∧ j3.name = "C") ∧
     r3.2 = []) :=
  ⟨⟨by decide, by decide, by decide⟩,
   queue_fifo_from_empty defsABC "A" "B" "C" ⟨"ia", "ta"⟩ ⟨"ib", "tb"⟩
     ⟨"ic", "tc"⟩ (by decide) (by decide) (by decide)⟩

/-! ## SimpleFileLock (src/file_lock.py)

The decision taken by one iteration of `__enter__`'s acquisition loop
when the exclusive create has failed (`FileExistsError`) and the timeout
has not yet elapsed.  The lock file's state is: unreadable (the `open`
or `read` raised `IOError`), or readable with some character content.
`psutil.pid_exists` is abstracted as a liveness predicate on PIDs. -/

/-- What the acquirer does before the next attempt. -/
inductive LockAction where
  /-- `os.remove(...)` followed by `continue` (retry immediately). -/
  | removeAndRetry
  /-- fall through to `time.sleep(0.1)` before retrying. -/
  | sleepRetry
  deriving DecidableEq, Repr

/-- Observable state of the existing lock file. -/
inductive LockFileContent where
  | unreadable
  | content (cs : List Char)

/-- Digit run of Python `int()`, after the first digit: digits with single
underscores strictly between digits. -/
def intDigitsAux : Nat → List Char → Option Nat
  | acc, [] => some acc
  | acc, c :: cs =>
    if c.isDigit then intDigitsAux (acc * 10 + (c.toNat - '0'.toNat)) cs
    else if c = '_' then
      match cs with
      | [] => none
      | d :: cs' =>
        if d.isDigit then intDigitsAux (acc * 10 + (d.toNat - '0'.toNat)) cs'
        else none
    else none

/-- Unsigned part of Python `int()`: a nonempty digit string. -/
def intDigitsStart : List Char → Option Nat
  | [] => none
  | c :: cs =>
    if c.isDigit then intDigitsAux (c.toNat - '0'.toNat) cs else none

/-- Python `int(s)` on text: strip whitespace, optional sign, decimal
digits; `none` models the `ValueError` raised on anything else. -/
def pyParseInt (cs : List Char) : Option Int :=
  match pyStrip cs with
  | '+' :: rest => (intDigitsStart rest).map Int.ofNat
  | '-' :: rest => (intDigitsStart rest).map (fun n => -(n : Int))
  | rest => (intDigitsStart rest).map Int.ofNat

/-- One stale-lock check of `SimpleFileLock.__enter__` after
`FileExistsError` (timeout not yet elapsed): read the lock file, strip;
empty content is deleted and retried immediately; unreadable or
unparseable content falls into `except (IOError, ValueError): pass` and
sleeps; a parsed PID is deleted-and-retried only when not alive. -/
def stale_check_action (c : LockFileContent) (pid_running : Int → Bool) :
    LockAction :=
  match c with
  | .unreadable => .sleepRetry
  | .content cs =>
    let pid_str := pyStrip cs
    if pid_str = [] then .removeAndRetry
    else
      match pyParseInt pid_str with
      | none => .sleepRetry
      | some pid =>
        if pid_running pid then .sleepRetry else .removeAndRetry

/-- C3 counterexample: the lock file content "abc" is non-empty and does
not parse as a PID, yet the acquirer sleeps (~100ms) instead of deleting
the lock file and retrying immediately — refuting the claim that every
unreadable/unparseable content is treated as stale and deleted. -/
theorem stale_check_unparseable_sleeps :
    pyStrip "abc".data ≠ [] ∧
    pyParseInt (pyStrip "abc".data) = none ∧
    stale_check_action (.content "abc".data) (fun _ => false) =
      .sleepRetry ∧
    LockAction.sleepRetry ≠ LockAction.removeAndRetry := by
  refine ⟨by decide, by decide, by decide, by decide⟩

/-- C3 amended: case analysis of the stale check.  Empty content and
content naming a dead PID are deleted and retried immediately; unreadable
content, non-empty unparseable content, and a live PID all sleep ~100ms
before the retry. -/
theorem stale_check_action_cases (pid_running : Int → Bool) :
    (∀ cs, pyStrip cs = [] →
        stale_check_action (.content cs) pid_running = .removeAndRetry) ∧
    (∀ cs pid, pyParseInt (pyStrip cs) = some pid → pid_running pid = false →
        pyStrip cs ≠ [] →
        stale_check_action (.content cs) pid_running = .removeAndRetry) ∧
    (∀ cs pid, pyParseInt (pyStrip cs) = some pid → pid_running pid = true →
        pyStrip cs ≠ [] →
        stale_check_action (.content cs) pid_running = .sleepRetry) ∧
    (∀ cs, pyStrip cs ≠ [] → pyParseInt (pyStrip cs) = none →
        stale_check_action (.content cs) pid_running = .sleepRetry) ∧
    stale_check_action .unreadable pid_running = .sleepRetry := by
  refine ⟨?_, ?_, ?_, ?_, rfl⟩
  · intro cs h; simp [stale_check_action, h]
  · intro cs pid hp hl hne; simp [stale_check_action, hne, hp, hl]
  · intro cs pid hp hl hne; simp [stale_check_action, hne, hp, hl]
  · intro cs hne hp; simp [stale_check_action, hne, hp]

/-- Witness for C3 amended, with liveness predicate "only PID 7 is
alive": whitespace-only content is deleted; "99" (dead) is deleted; "7"
(alive) sleeps; "abc" would sleep (shown in the counterexample);
unreadable content sleeps. -/
theorem stale_check_action_cases_witness :
    (pyStrip "  ".data = [] ∧
     stale_check_action (.content "  ".data) (fun pid => pid = 7) =
       .removeAndRetry) ∧
    (pyParseInt (pyStrip "99".data) = some 99 ∧
     (fun pid : Int => decide (pid = 7)) 99 = false ∧ pyStrip "99".data ≠ [] ∧
     stale_check_action (.content "99".data) (fun pid => pid = 7) =
       .removeAndRetry) ∧
    (pyParseInt (pyStrip "7".data) = some 7 ∧
     (fun pid : Int => decide (pid = 7)) 7 = true ∧ pyStrip "7".data ≠ [] ∧
     stale_check_action (.content "7".data) (fun pid => pid = 7) =
       .sleepRetry) ∧
    stale_check_action .unreadable (fun pid => pid = 7) = .sleepRetry :=
  ⟨⟨by decide, (stale_check_action_cases (fun pid => pid = 7)).1 _ (by decide)⟩,
   ⟨by decide, by decide, by decide,
    (stale_check_action_cases (fun pid => pid = 7)).2.1 _ 99 (by decide)
      (by decide) (by decide)⟩,
   ⟨by decide, by decide, by decide,
    (stale_check_action_cases (fun pid => pid = 7)).2.2.1 _ 7 (by decide)
      (by decide) (by decide)⟩,
   (stale_check_action_cases (fun pid => pid = 7)).2.2.2.2⟩

/-! ## CycleManager (src/cycle_manager.py)

Cycles live in `cycles.json`, a JSON object keyed by cycle name; each
cycle owns an ordered list of `{name, prompt}` triggers. -/

/-- One `{name, prompt}` trigger of a cycle. -/
structure Trigger where
  name : String
  prompt : String
  deriving DecidableEq, Repr

/-- A cycle record from `cycles.json`. -/
structure Cycle where
  name : String
  type : String
  description : String
  triggers : List Trigger
  deriving DecidableEq, Repr

/-- In-place update of the (first) entry with the given key, the embedding
of mutating `self.cycles[cycle_name]`. -/
def updateCycle (k : String) (f : Cycle → Cycle) :
    List (String × Cycle) → List (String × Cycle)
  | [] => []
  | (k', v) :: rest =>
    if k = k' then (k', f v) :: rest else (k', v) :: updateCycle k f rest

/-- The overwrite loop of `add_trigger_to_cycle`: the first trigger whose
name matches gets its prompt replaced, everything else is unchanged. -/
def overwriteFirstPrompt (tname tprompt : String) : List Trigger → List Trigger
  | [] => []
  | t :: ts =>
    if t.name = tname then { t with prompt := tprompt } :: ts
    else t :: overwriteFirstPrompt tname tprompt ts

/-- `CycleManager.add_trigger_to_cycle`: no-op for unknown cycles; a
duplicate trigger name overwrites that trigger's prompt in place; a fresh
name is appended. -/
def add_trigger_to_cycle (cycles : List (String × Cycle))
    (cname tname tprompt : String) : List (String × Cycle) :=
  match lookup cname cycles with
  | none => cycles
  | some cyc =>
    if cyc.triggers.any (fun t => t.name = tname) then
      updateCycle cname
        (fun c => { c with triggers := overwriteFirstPrompt tname tprompt c.triggers })
        cycles
    else
      updateCycle cname
        (fun c => { c with triggers := c.triggers ++ [⟨tname, tprompt⟩] })
        cycles

/-- `CycleManager.delete_trigger_from_cycle`: keeps exactly the triggers
whose name differs. -/
def delete_trigger_from_cycle (cycles : List (String × Cycle))
    (cname tname : String) : List (String × Cycle) :=
  match lookup cname cycles with
  | none => cycles
  | some _ =>
    updateCycle cname
      (fun c => { c with triggers := c.triggers.filter (fun t => t.name ≠ tname) })
      cycles

/-- Trigger names are pairwise distinct within a cycle. -/
def namesUnique (c : Cycle) : Prop :=
  (c.triggers.map Trigger.name).Nodup

/-- Every stored cycle satisfies the trigger-name uniqueness invariant. -/
def CyclesInv (cycles : List (String × Cycle)) : Prop :=
  ∀ p ∈ cycles, namesUnique p.2

instance (c : Cycle) : Decidable (namesUnique c) := by
  unfold namesUnique; infer_instance

instance (l : List (String × Cycle)) : Decidable (CyclesInv l) := by
  unfold CyclesInv; exact List.decidableBAll _ l

/-- The mutations of C9's "any sequence of calls". -/
inductive CycleOp where
  | add (cname tname tprompt : String)
  | del (cname tname : String)

/-- Apply one CRUD call. -/
def applyCycleOp (cycles : List (String × Cycle)) : CycleOp → List (String × Cycle)
  | .add cname tname tprompt => add_trigger_to_cycle cycles cname tname tprompt
  | .del cname tname => delete_trigger_from_cycle cycles cname tname

/-- Apply a sequence of CRUD calls in order. -/
def applyCycleOps (ops : List CycleOp) (cycles : List (String × Cycle)) :
    List (String × Cycle) :=
  ops.foldl applyCycleOp cycles

theorem overwriteFirstPrompt_map_name (tname tprompt : String)
    (ts : List Trigger) :
    (overwriteFirstPrompt tname tprompt ts).map Trigger.name =
      ts.map Trigger.name := by
  induction ts with
  | nil => rfl
  | cons t ts ih =>
    by_cases h : t.name = tname <;> simp [overwriteFirstPrompt, h, ih]

theorem lookup_updateCycle_self (k : String) (f : Cycle → Cycle)
    (l : List (String × Cycle)) :
    lookup k (updateCycle k f l) = (lookup k l).map f := by
  induction l with
  | nil => rfl
  | cons p rest ih =>
    obtain ⟨k', v⟩ := p
    by_cases h : k = k' <;> simp [updateCycle, lookup, h, ih]

theorem mem_updateCycle {l : List (String × Cycle)} {k : String}
    {f : Cycle → Cycle} {p : String × Cycle} (hp : p ∈ updateCycle k f l) :
    p ∈ l ∨ ∃ v, lookup k l = some v ∧ p = (k, f v) := by
  induction l with
  | nil => cases hp
  | cons q rest ih =>
    obtain ⟨k', v⟩ := q
    by_cases h : k = k'
    · rw [updateCycle, if_pos h] at hp
      rcases List.mem_cons.mp hp with h1 | h1
      · exact Or.inr ⟨v, by simp [lookup, h], by rw [h1, h]⟩
      · exact Or.inl (List.mem_cons_of_mem _ h1)
    · rw [updateCycle, if_neg h] at hp
      rcases List.mem_cons.mp hp with h1 | h1
      · exact Or.inl (by rw [h1]; exact List.mem_cons_self _ _)
      · rcases ih h1 with h2 | ⟨w, hw, hpw⟩
        · exact Or.inl (List.mem_cons_of_mem _ h2)
        · exact Or.inr ⟨w, by simp [lookup, h, hw], hpw⟩

theorem lookup_mem {α : Type} {l : List (String × α)} {k : String} {v : α}
    (h : lookup k l = some v) : (k, v) ∈ l := by
  induction l with
  | nil => cases h
  | cons q rest ih =>
    obtain ⟨k', w⟩ := q
    by_cases hk : k = k'
    · rw [lookup, if_pos hk] at h
      cases h
      rw [hk]
      exact List.mem_cons_self _ _
    · rw [lookup, if_neg hk] at h
      exact List.mem_cons_of_mem _ (ih h)

theorem add_trigger_preserves_inv (cycles : List (String × Cycle))
    (cname tname tprompt : String) (hinv : CyclesInv cycles) :
    CyclesInv (add_trigger_to_cycle cycles cname tname tprompt) := by
  cases hcyc : lookup cname cycles with
  | none => simpa [add_trigger_to_cycle, hcyc] using hinv
  | some cyc =>
    by_cases hdup : cyc.triggers.any (fun t => t.name = tname)
    · rw [show add_trigger_to_cycle cycles cname tname tprompt = updateCycle
          cname
          (fun c => { c with triggers := overwriteFirstPrompt tname tprompt c.triggers })
          cycles from by simp [add_trigger_to_cycle, hcyc, hdup]]
      intro p hp
      rcases mem_updateCycle hp with h | ⟨v, hv, rfl⟩
      · exact hinv p h
      · have := hinv (cname, v) (lookup_mem hv)
        unfold namesUnique at *
        simpa [overwriteFirstPrompt_map_name] using this
    · rw [show add_trigger_to_cycle cycles cname tname tprompt = updateCycle
          cname
          (fun c => { c with triggers := c.triggers ++ [⟨tname, tprompt⟩] })
          cycles from by simp [add_trigger_to_cycle, hcyc, hdup]]
      intro p hp
      rcases mem_updateCycle hp with h | ⟨v, hv, rfl⟩
      · exact hinv p h
      · rw [hcyc] at hv
        cases hv
        have hmem := hinv (cname, cyc) (lookup_mem hcyc)
        have hnot : tname ∉ cyc.triggers.map Trigger.name := by
          intro hmem2
          rcases List.mem_map.mp hmem2 with ⟨t, ht, htn⟩
          have : cyc.triggers.any (fun t => t.name = tname) := by
            rw [List.any_eq_true]
            exact ⟨t, ht, by simp [htn]⟩
          exact hdup this
        unfold namesUnique at *
        simp only [List.map_append, List.map_cons, List.map_nil]
        rw [List.nodup_append]
        exact ⟨hmem, List.nodup_singleton _,
          fun a ha hb => hnot (by simp at hb; rwa [hb] at ha)⟩

theorem delete_trigger_preserves_inv (cycles : List (String × Cycle))
    (cname tname : String) (hinv : CyclesInv cycles) :
    CyclesInv (delete_trigger_from_cycle cycles cname tname) := by
  cases hcyc : lookup cname cycles with
  | none => simpa [delete_trigger_from_cycle, hcyc] using hinv
  | some cyc =>
    rw [show delete_trigger_from_cycle cycles cname tname = updateCycle cname
        (fun c => { c with triggers := c.triggers.filter (fun t => t.name ≠ tname) })
        cycles from by simp [delete_trigger_from_cycle, hcyc]]
    intro p hp
    rcases mem_updateCycle hp with h | ⟨v, hv, rfl⟩
    · exact hinv p h
    · have hvinv := hinv (cname, v) (lookup_mem hv)
      unfold namesUnique at *
      exact List.Nodup.sublist
        (List.Sublist.map Trigger.name (List.filter_sublist _)) hvinv

/-- C9: `add_trigger_to_cycle` preserves trigger-name uniqueness: adding
a name already present overwrites that trigger's prompt in place (the
name list, hence length and order, is unchanged); a fresh name is
appended; and any sequence of add/delete calls keeps trigger names
unique in every cycle. -/
theorem add_trigger_keeps_names_unique :
    (∀ (cycles : List (String × Cycle)) (cname : String) (cyc : Cycle)
        (tname tprompt : String),
      lookup cname cycles = some cyc →
      tname ∈ cyc.triggers.map Trigger.name →
      ∃ cyc', lookup cname (add_trigger_to_cycle cycles cname tname tprompt) =
          some cyc' ∧
        cyc'.triggers.map Trigger.name = cyc.triggers.map Trigger.name ∧
        cyc'.triggers.length = cyc.triggers.length) ∧
    (∀ (cycles : List (String × Cycle)) (cname : String) (cyc : Cycle)
        (tname tprompt : String),
      lookup cname cycles = some cyc →
      tname ∉ cyc.triggers.map Trigger.name →
      ∃ cyc', lookup cname (add_trigger_to_cycle cycles cname tname tprompt) =
          some cyc' ∧
        cyc'.triggers = cyc.triggers ++ [⟨tname, tprompt⟩]) ∧
    (∀ (ops : List CycleOp) (cycles : List (String × Cycle)),
      CyclesInv cycles → CyclesInv (applyCycleOps ops cycles)) := by
  refine ⟨?_, ?_, ?_⟩
  · intro cycles cname cyc tname tprompt hcyc hmem
    have hdup : cyc.triggers.any (fun t => t.name = tname) = true := by
      rw [List.any_eq_true]
      rcases List.mem_map.mp hmem with ⟨t, ht, htn⟩
      exact ⟨t, ht, by simp [htn]⟩
    rw [show add_trigger_to_cycle cycles cname tname tprompt = updateCycle
        cname
        (fun c => { c with triggers := overwriteFirstPrompt tname tprompt c.triggers })
        cycles from by simp [add_trigger_to_cycle, hcyc, hdup]]
    refine ⟨_, by rw [lookup_updateCycle_self, hcyc]; rfl, ?_, ?_⟩
    · exact overwriteFirstPrompt_map_name tname tprompt cyc.triggers
    · have := congrArg List.length
        (overwriteFirstPrompt_map_name tname tprompt cyc.triggers)
      simpa using this
  · intro cycles cname cyc tname tprompt hcyc hmem
    have hdup : cyc.triggers.any (fun t => t.name = tname) = false := by
      rw [List.any_eq_false]
      intro t ht
      simp only [decide_eq_true_eq]
      intro htn
      exact hmem (List.mem_map.mpr ⟨t, ht, htn⟩)
    rw [show add_trigger_to_cycle cycles cname tname tprompt = updateCycle
        cname
        (fun c => { c with triggers := c.triggers ++ [⟨tname, tprompt⟩] })
        cycles from by simp [add_trigger_to_cycle, hcyc, hdup]]
    exact ⟨_, by rw [lookup_updateCycle_self, hcyc]; rfl, rfl⟩
  · intro ops
    induction ops with
    | nil => intro cycles h; exact h
    | cons op ops ih =>
      intro cycles h
      rw [show applyCycleOps (op :: ops) cycles =
          applyCycleOps ops (applyCycleOp cycles op) from rfl]
      apply ih
      cases op with
      | add cname tname tprompt => exact add_trigger_preserves_inv _ _ _ _ h
      | del cname tname => exact delete_trigger_preserves_inv _ _ _ h

/-- A one-cycle store for the C9 witness. -/
def cyc9 : Cycle := ⟨"c", "prompt", "", [⟨"t1", "p1"⟩]⟩

def cycles9 : List (String × Cycle) := [("c", cyc9)]

def ops9 : List CycleOp :=
  [.add "c" "t1" "q1", .add "c" "t2" "q2", .del "c" "t1"]

/-- Witness for C9 at a concrete one-cycle store: a duplicate add keeps
the name list, a fresh add appends, and a concrete op sequence keeps the
invariant. -/
theorem add_trigger_keeps_names_unique_witness :
    (lookup "c" cycles9 = some cyc9 ∧
     "t1" ∈ cyc9.triggers.map Trigger.name ∧
     ∃ cyc', lookup "c" (add_trigger_to_cycle cycles9 "c" "t1" "np") =
         some cyc' ∧
       cyc'.triggers.map Trigger.name = cyc9.triggers.map Trigger.name ∧
       cyc'.triggers.length = cyc9.triggers.length) ∧
    ("t2" ∉ cyc9.triggers.map Trigger.name ∧
     ∃ cyc', lookup "c" (add_trigger_to_cycle cycles9 "c" "t2" "p2") =
         some cyc' ∧
       cyc'.triggers = cyc9.triggers ++ [⟨"t2", "p2"⟩]) ∧
    (CyclesInv cycles9 ∧ CyclesInv (applyCycleOps ops9 cycles9)) :=
  ⟨⟨by decide, by decide,
    add_trigger_keeps_names_unique.1 cycles9 "c" cyc9 "t1" "np" (by decide)
      (by decide)⟩,
   ⟨by decide,
    add_trigger_keeps_names_unique.2.1 cycles9 "c" cyc9 "t2" "p2" (by decide)
      (by decide)⟩,
   ⟨by decide,
    add_trigger_keeps_names_unique.2.2 ops9 cycles9 (by decide)⟩⟩

/-! ## CycleWatcher (src/automation/cycle_watcher.py)

One iteration of `CycleWatcher.run`'s loop body, acting on the flag
files it reads and writes.  Flag reads are tolerant: a missing or
corrupt `active_cycle.json` is `none`; `llm_status.txt` is a plain
string or `none`.  The in-memory cycle table is loaded once at watcher
start, so it is a parameter of the step. -/

/-- The `active_cycle.json` record `{name, status, current_step}`. -/
structure ActiveCycle where
  name : String
  status : String
  current_step : Nat
  deriving DecidableEq, Repr

/-- Observable state of the watcher's flag files, plus the history of
prompts injected into the trigger channel (each write to
`cycle_trigger.txt` appends its prompt to `injected`). -/
structure WatcherState where
  active : Option ActiveCycle
  llm : Option String
  trigger : Option String
  injected : List String
  deriving DecidableEq, Repr

/-- One iteration of the cycle watcher loop: skip unless a running cycle
is flagged and the LLM reads idle; stop on a dangling cycle name, an
empty trigger list, or an exhausted step counter; otherwise write `busy`,
inject `triggers[current_step]`, and advance the step by one. -/
def cycleStep (cycles : List (String × Cycle)) (s : WatcherState) :
    WatcherState :=
  match s.active with
  | none => s
  | some ac =>
    if ac.status ≠ "running" then s
    else if s.llm ≠ some "idle" then s
    else
      match lookup ac.name cycles with
      | none => { s with active := some { ac with status := "stopped" } }
      | some cyc =>
        if cyc.triggers.isEmpty then
          { s with active := some { ac with status := "stopped" } }
        else if h : ac.current_step < cyc.triggers.length then
          let t := cyc.triggers.get ⟨ac.current_step, h⟩
          { s with llm := some "busy", trigger := some t.prompt,
                   injected := s.injected ++ [t.prompt],
                   active := some { ac with current_step := ac.current_step + 1 } }
        else { s with active := some { ac with status := "stopped" } }

/-- The consumer reporting idle before the next watcher poll. -/
def signalIdle (s : WatcherState) : WatcherState :=
  { s with llm := some "idle" }

theorem cycleStep_inject (cycles : List (String × Cycle)) (s : WatcherState)
    (ac : ActiveCycle) (cyc : Cycle)
    (hA : s.active = some ac) (hSt : ac.status = "running")
    (hIdle : s.llm = some "idle") (hC : lookup ac.name cycles = some cyc)
    (hLt : ac.current_step < cyc.triggers.length) :
    cycleStep cycles s =
      { s with llm := some "busy",
               trigger := some (cyc.triggers.get ⟨ac.current_step, hLt⟩).prompt,
               injected := s.injected ++
                 [(cyc.triggers.get ⟨ac.current_step, hLt⟩).prompt],
               active := some { ac with current_step := ac.current_step + 1 } } := by
  have hne : cyc.triggers.isEmpty = false := by
    cases htr : cyc.triggers with
    | nil => rw [htr] at hLt; simp at hLt
    | cons a l => rfl
  unfold cycleStep
  rw [hA]
  simp [hSt, hIdle, hC, hne, hLt]

theorem cycleStep_complete (cycles : List (String × Cycle)) (s : WatcherState)
    (ac : ActiveCycle) (cyc : Cycle)
    (hA : s.active = some ac) (hSt : ac.status = "running")
    (hIdle : s.llm = some "idle") (hC : lookup ac.name cycles = some cyc)
    (hNe : cyc.triggers ≠ []) (hGe : cyc.triggers.length ≤ ac.current_step) :
    cycleStep cycles s =
      { s with active := some { ac with status := "stopped" } } := by
  have hne : cyc.triggers.isEmpty = false := by
    cases htr : cyc.triggers with
    | nil => exact absurd htr hNe
    | cons a l => rfl
  have hnlt : ¬ ac.current_step < cyc.triggers.length := not_lt.mpr hGe
  unfold cycleStep
  rw [hA]
  simp [hSt, hIdle, hC, hne, hnlt]

/-- C4: starting a cycle with triggers `[t0, t1, t2]` at step 0, three
watcher iterations under consecutive idle signals inject exactly the
three prompts in order; the fourth idle iteration injects nothing and
flips the status to `stopped`.  In every iteration an injection happens
only when the record is `running`, the LLM flag reads `idle`, and
`triggers[current_step]` exists, and it then writes `busy` and advances
`current_step` by exactly one. -/
theorem cycle_step_monotone :
    (∀ (cycles : List (String × Cycle)) (cname : String) (cyc : Cycle)
        (p0 p1 p2 n0 n1 n2 : String) (llm0 trig0 : Option String),
      lookup cname cycles = some cyc →
      cyc.triggers = [⟨n0, p0⟩, ⟨n1, p1⟩, ⟨n2, p2⟩] →
      let s0 : WatcherState := ⟨some ⟨cname, "running", 0⟩, llm0, trig0, []⟩
      let s1 := cycleStep cycles (signalIdle s0)
      let s2 := cycleStep cycles (signalIdle s1)
      let s3 := cycleStep cycles (signalIdle s2)
      let s4 := cycleStep cycles (signalIdle s3)
      s1.injected = [p0] ∧ s2.injected = [p0, p1] ∧
      s3.injected = [p0, p1, p2] ∧ s3.active = some ⟨cname, "running", 3⟩ ∧
      s4.injected = [p0, p1, p2] ∧ s4.active = some ⟨cname, "stopped", 3⟩) ∧
    (∀ (cycles : List (String × Cycle)) (s : WatcherState),
      (cycleStep cycles s).injected ≠ s.injected →
      ∃ ac cyc, s.active = some ac ∧ ac.status = "running" ∧
        s.llm = some "idle" ∧ lookup ac.name cycles = some cyc ∧
        ∃ h : ac.current_step < cyc.triggers.length,
          (cycleStep cycles s).injected =
            s.injected ++ [(cyc.triggers.get ⟨ac.current_step, h⟩).prompt] ∧
          (cycleStep cycles s).llm = some "busy" ∧
          (cycleStep cycles s).active =
            some { ac with current_step := ac.current_step + 1 }) := by
  constructor
  · intro cycles cname cyc p0 p1 p2 n0 n1 n2 llm0 trig0 hC hT
    intro s0 s1 s2 s3 s4
    have e1 : s1 = ⟨some ⟨cname, "running", 1⟩, some "busy", some p0, [p0]⟩ := by
      rw [show s1 = cycleStep cycles (signalIdle s0) from rfl,
        cycleStep_inject cycles (signalIdle s0) ⟨cname, "running", 0⟩ cyc rfl
          rfl rfl hC (by simp [hT])]
      simp [signalIdle, s0, hT]
    have e2 : s2 = ⟨some ⟨cname, "running", 2⟩, some "busy", some p1,
        [p0, p1]⟩ := by
      rw [show s2 = cycleStep cycles (signalIdle s1) from rfl, e1,
        cycleStep_inject cycles (signalIdle ⟨some ⟨cname, "running", 1⟩,
          some "busy", some p0, [p0]⟩) ⟨cname, "running", 1⟩ cyc rfl rfl rfl hC
          (by simp [hT])]
      simp [signalIdle, hT]
    have e3 : s3 = ⟨some ⟨cname, "running", 3⟩, some "busy", some p2,
        [p0, p1, p2]⟩ := by
      rw [show s3 = cycleStep cycles (signalIdle s2) from rfl, e2,
        cycleStep_inject cycles (signalIdle ⟨some ⟨cname, "running", 2⟩,
          some "busy", some p1, [p0, p1]⟩) ⟨cname, "running", 2⟩ cyc rfl rfl
          rfl hC (by simp [hT])]
      simp [signalIdle, hT]
    have e4 : s4 = ⟨some ⟨cname, "stopped", 3⟩, some "idle", some p2,
        [p0, p1, p2]⟩ := by
      rw [show s4 = cycleStep cycles (signalIdle s3) from rfl, e3,
        cycleStep_complete cycles (signalIdle ⟨some ⟨cname, "running", 3⟩,
          some "busy", some p2, [p0, p1, p2]⟩) ⟨cname, "running", 3⟩ cyc rfl
          rfl rfl hC (by simp [hT]) (by simp [hT])]
      simp [signalIdle]
    exact ⟨by rw [e1], by rw [e2], by rw [e3], by rw [e3], by rw [e4],
      by rw [e4]⟩
  · intro cycles s hneq
    cases hA : s.active with
    | none =>
      rw [show cycleStep cycles s = s from by unfold cycleStep; rw [hA]]
        at hneq
      exact absurd rfl hneq
    | some ac =>
      by_cases hSt : ac.status = "running"
      · by_cases hIdle : s.llm = some "idle"
        · cases hC : lookup ac.name cycles with
          | none =>
            have : (cycleStep cycles s).injected = s.injected := by
              unfold cycleStep; rw [hA]; simp [hSt, hIdle, hC]
            exact absurd this hneq
          | some cyc =>
            by_cases hLt : ac.current_step < cyc.triggers.length
            · refine ⟨ac, cyc, rfl, hSt, hIdle, hC, hLt, ?_, ?_, ?_⟩ <;>
                rw [cycleStep_inject cycles s ac cyc hA hSt hIdle hC hLt]
            · have : (cycleStep cycles s).injected = s.injected := by
                unfold cycleStep
                rw [hA]
                by_cases hE : cyc.triggers.isEmpty <;>
                  simp [hSt, hIdle, hC, hE, hLt]
              exact absurd this hneq
        · have : (cycleStep cycles s).injected = s.injected := by
            unfold cycleStep; rw [hA]; simp [hSt, hIdle]
          exact absurd this hneq
      · have : (cycleStep cycles s).injected = s.injected := by
          unfold cycleStep; rw [hA]; simp [hSt]
        exact absurd this hneq

/-- The cycle store for the C4 witness. -/
def cycW : Cycle := ⟨"c", "prompt", "", [⟨"a", "p0"⟩, ⟨"b", "p1"⟩, ⟨"d", "p2"⟩]⟩

def cyclesW : List (String × Cycle) := [("c", cycW)]

/-- A watcher state about to inject, for the C4 witness. -/
def sW : WatcherState := ⟨some ⟨"c", "running", 0⟩, some "idle", none, []⟩

/-- Witness for C4 at a concrete three-trigger cycle. -/
theorem cycle_step_monotone_witness :
    (lookup "c" cyclesW = some cycW ∧
     cycW.triggers = [⟨"a", "p0"⟩, ⟨"b", "p1"⟩, ⟨"d", "p2"⟩] ∧
     (let s0 : WatcherState := ⟨some ⟨"c", "running", 0⟩, none, none, []⟩
      let s1 := cycleStep cyclesW (signalIdle s0)
      let s2 := cycleStep cyclesW (signalIdle s1)
      let s3 := cycleStep cyclesW (signalIdle s2)
      let s4 := cycleStep cyclesW (signalIdle s3)
      s1.injected = ["p0"] ∧ s2.injected = ["p0", "p1"] ∧
      s3.injected = ["p0", "p1", "p2"] ∧
      s3.active = some ⟨"c", "running", 3⟩ ∧
      s4.injected = ["p0", "p1", "p2"] ∧
      s4.active = some ⟨"c", "stopped", 3⟩)) ∧
    ((cycleStep cyclesW sW).injected ≠ sW.injected ∧
     ∃ ac cyc, sW.active = some ac ∧ ac.status = "running" ∧
       sW.llm = some "idle" ∧ lookup ac.name cyclesW = some cyc ∧
       ∃ h : ac.current_step < cyc.triggers.length,
         (cycleStep cyclesW sW).injected =
           sW.injected ++ [(cyc.triggers.get ⟨ac.current_step, h⟩).prompt] ∧
         (cycleStep cyclesW sW).llm = some "busy" ∧
         (cycleStep cyclesW sW).active =
           some { ac with current_step := ac.current_step + 1 }) :=
  ⟨⟨by decide, by decide,
    cycle_step_monotone.1 cyclesW "c" cycW "p0" "p1" "p2" "a" "b" "d" none
      none (by decide) (by decide)⟩,
   ⟨by decide, cycle_step_monotone.2 cyclesW sW (by decide)⟩⟩

/-! ## DeltaManager (src/delta_manager.py)

The manifest is a JSON object: a `deltas` list of relative path strings,
a `simple_deltas` dict, and arbitrary further sections.  JSON values are
embedded as `JValue`; the renderings produced by Python `str()` are a
parameter `pyStr` of the render function (the code only ever dispatches
on `isinstance(_, dict)` / `isinstance(_, list)` and otherwise passes
values through `str`).  The file system is a partial map from relative
path to content; `none` covers both a missing delta file (logged and
skipped) and an unreadable one (same skip path). -/

/-- A JSON value inside the manifest.  `atom` is any scalar. -/
inductive JValue where
  | atom (s : String)
  | jlist (items : List JValue)
  | jdict (kvs : List (String × JValue))
  deriving Repr

/-- Loop 1 of `get_delta_content`: the contents of the files listed under
`deltas`, in list order, skipping missing files.  The section is only
processed when present and a list; elements of that list are relative
path strings in every manifest the code writes (a non-string would raise
`TypeError` in the source, outside this embedding). -/
def deltaFileContents (fs : String → Option String) (m : List (String × JValue)) :
    List String :=
  match lookup "deltas" m with
  | some (.jlist items) =>
    items.filterMap (fun it => match it with
      | .atom p => fs p
      | _ => none)
  | _ => []

/-- Loop 2 of `get_delta_content`: `str(value)` for every `simple_deltas`
entry, in insertion order; only processed when present and a dict. -/
def simpleDeltaValues (pyStr : JValue → String) (m : List (String × JValue)) :
    List String :=
  match lookup "simple_deltas" m with
  | some (.jdict kvs) => kvs.map (fun kv => pyStr kv.2)
  | _ => []

/-- The `section_content` lines of loop 3: dict entries as `"k: v"`
lines, list entries one item per line, anything else as its `str()`. -/
def sectionLines (pyStr : JValue → String) : JValue → List String
  | .jdict kvs => kvs.map (fun kv => kv.1 ++ ": " ++ pyStr kv.2)
  | .jlist items => items.map pyStr
  | v => [pyStr v]

/-- Loop 3 of `get_delta_content`: every manifest section other than
`deltas`/`simple_deltas`, in manifest order, rendered as a
`###NAME_START### … ###_END###` block; sections rendering to no lines
are skipped (`if section_content:`). -/
def sectionBlocks (pyStr : JValue → String) (m : List (String × JValue)) :
    List String :=
  (m.filter (fun p => p.1 ≠ "deltas" ∧ p.1 ≠ "simple_deltas")).filterMap
    (fun p =>
      let content := sectionLines pyStr p.2
      if content.isEmpty then none
      else some ("###" ++ pyUpper p.1 ++ "_START###\n" ++
        String.intercalate "\n" content ++ "\n###_END###"))

/-- `DeltaManager.get_delta_content`: accumulate the three loops into one
list, return `""` when it is empty, otherwise join with newlines and wrap
in the `###DELTAS_START###`/`###DELTAS_END###` markers. -/
def get_delta_content (pyStr : JValue → String) (fs : String → Option String)
    (m : List (String × JValue)) : String :=
  let all_delta_contents :=
    deltaFileContents fs m ++ simpleDeltaValues pyStr m ++ sectionBlocks pyStr m
  if all_delta_contents.isEmpty then ""
  else "###DELTAS_START###\n" ++
    String.intercalate "\n" all_delta_contents ++ "\n###DELTAS_END###"

/-- C5: the render is the wrapped, newline-joined concatenation, in
order, of (1) the contents of the existing files in the `deltas` list
(missing ones skipped), (2) the `simple_deltas` values, (3) every other
manifest section as a `###NAME_START### … ###_END###` block (dict
entries as `key: value` lines, list entries one per line) — and it is
the empty string exactly when all three parts render nothing. -/
theorem get_delta_content_renders (pyStr : JValue → String)
    (fs : String → Option String) (m : List (String × JValue)) :
    (get_delta_content pyStr fs m =
      if ((match lookup "deltas" m with
           | some (.jlist items) =>
             items.filterMap (fun it => match it with
               | .atom p => fs p
               | _ => none)
           | _ => []) ++
          (match lookup "simple_deltas" m with
           | some (.jdict kvs) => kvs.map (fun kv => pyStr kv.2)
           | _ => []) ++
          (m.filter (fun p => p.1 ≠ "deltas" ∧ p.1 ≠ "simple_deltas")).filterMap
            (fun p =>
              let content := sectionLines pyStr p.2
              if content.isEmpty then none
              else some ("###" ++ pyUpper p.1 ++ "_START###\n" ++
                String.intercalate "\n" content ++ "\n###_END###"))).isEmpty
      then ""
      else "###DELTAS_START###\n" ++
        String.intercalate "\n"
          (deltaFileContents fs m ++ simpleDeltaValues pyStr m ++
            sectionBlocks pyStr m) ++ "\n###DELTAS_END###") ∧
    (get_delta_content pyStr fs m = "" ↔
      deltaFileContents fs m = [] ∧ simpleDeltaValues pyStr m = [] ∧
      sectionBlocks pyStr m = []) := by
  have hGet : get_delta_content pyStr fs m =
      if (deltaFileContents fs m ++ simpleDeltaValues pyStr m ++
          sectionBlocks pyStr m).isEmpty then ""
      else "###DELTAS_START###\n" ++
        String.intercalate "\n" (deltaFileContents fs m ++
          simpleDeltaValues pyStr m ++ sectionBlocks pyStr m) ++
        "\n###DELTAS_END###" := rfl
  constructor
  · rfl
  · rw [hGet]
    by_cases h : (deltaFileContents fs m ++ simpleDeltaValues pyStr m ++
        sectionBlocks pyStr m).isEmpty = true
    · rw [if_pos h]
      rw [List.isEmpty_iff, List.append_eq_nil, List.append_eq_nil] at h
      simp [h.1.1, h.1.2, h.2]
    · rw [if_neg h]
      constructor
      · intro hcon
        exfalso
        have hd := congrArg String.data hcon
        rw [String.data_append, String.data_append] at hd
        simp at hd
      · intro ⟨h1, h2, h3⟩
        rw [h1, h2, h3] at h
        simp at h


/-! ## VerbatimMemoryWatcher (src/automation/verbatim_memory_watcher.py)

The session state of the watcher: the current block number, the
input/output pair counter of the current block, the turn file currently
awaiting its output (`self.current_file`, an index into the list of turn
files written so far), and those files themselves.  Each turn file
records which block directory it was created in and whether its matching
output has been appended (one completed pair per output). -/

/-- A turn file on disk. -/
structure VFile where
  block : Nat
  content : String
  hasOutput : Bool
  deriving DecidableEq, Repr

/-- The watcher's session state. -/
structure VState where
  blockNumber : Nat
  messageCount : Nat
  currentFile : Option Nat
  files : List VFile
  deriving DecidableEq, Repr

/-- `start_new_block`: a fresh block directory (named from the current
`block_number`) with the pair counter reset to 0. -/
def start_new_block (s : VState) : VState :=
  { s with messageCount := 0 }

/-- `handle_input`: if the current block already holds 50 pairs, bump the
block number and start a new block first; then create the turn file (in
the current block directory) with the input content and remember it as
`current_file`. -/
def handle_input (content : String) (s : VState) : VState :=
  let s1 := if 50 ≤ s.messageCount then
      start_new_block { s with blockNumber := s.blockNumber + 1 }
    else s
  { s1 with files := s1.files ++ [⟨s1.blockNumber, content, false⟩],
            currentFile := some s1.files.length }

/-- `handle_output`: without a current turn file the output is dropped
with a warning; otherwise the content is appended to that file, the pair
counter increments, and `current_file` is cleared.  (The bounds guard is
an artifact of list indexing: in the source `current_file` always names
a file `handle_input` just created.) -/
def vdefault : VFile := ⟨0, "", false⟩

def handle_output (content : String) (s : VState) : VState :=
  match s.currentFile with
  | none => s
  | some i =>
    if i < s.files.length then
      let f := s.files.getD i vdefault
      { s with
        files := s.files.set i
          { f with content := f.content ++ "\n\n" ++ content,
                   hasOutput := true },
        messageCount := s.messageCount + 1,
        currentFile := none }
    else s

/-- The input/output events driving `handle_input`/`handle_output`
(the `input_ready`/`output_ready` statuses of the run loop). -/
inductive VEvent where
  | input (content : String)
  | output (content : String)

def vstep (s : VState) : VEvent → VState
  | .input c => handle_input c s
  | .output c => handle_output c s

def vrun (evs : List VEvent) (s : VState) : VState :=
  evs.foldl (fun st e => vstep st e) s

/-- Completed input/output pairs recorded in block `b`. -/
def pairsInBlock (b : Nat) (files : List VFile) : Nat :=
  files.countP (fun f => decide (f.block = b) && f.hasOutput)

/-- The watcher-session invariant: no file sits in a future block, the
pair counter counts the completed pairs of the current block, no block
holds more than 50 pairs, and a pending turn file lives in the current
block, has no output yet, and leaves the counter at most 49. -/
def VInv (s : VState) : Prop :=
  (∀ f ∈ s.files, f.block ≤ s.blockNumber) ∧
  s.messageCount = pairsInBlock s.blockNumber s.files ∧
  (∀ b, pairsInBlock b s.files ≤ 50) ∧
  (∀ i, s.currentFile = some i →
    i < s.files.length ∧
    (s.files.getD i vdefault).block = s.blockNumber ∧
    (s.files.getD i vdefault).hasOutput = false ∧
    s.messageCount ≤ 49)

theorem getD_append_length {α : Type} (l : List α) (a d : α) :
    (l ++ [a]).getD l.length d = a := by
  induction l with
  | nil => rfl
  | cons x xs ih => exact ih

theorem countP_set_of_old_false (p : VFile → Bool) (a : VFile) :
    ∀ (l : List VFile) (i : Nat), i < l.length →
      p (l.getD i vdefault) = false →
      (l.set i a).countP p = l.countP p + (if p a then 1 else 0) := by
  intro l
  induction l with
  | nil => intro i h; simp at h
  | cons x xs ih =>
    intro i h hp
    cases i with
    | zero =>
      have hpx : p x = false := by simpa [List.getD] using hp
      simp [List.set, List.countP_cons, hpx]
    | succ n =>
      have hn : n < xs.length := by simpa using h
      simp only [List.getD] at hp
      simp only [List.set, List.countP_cons, ih n hn (by simpa using hp)]
      omega

theorem vinv_handle_input (content : String) (s : VState) (hinv : VInv s) :
    VInv (handle_input content s) := by
  obtain ⟨hBlocks, hCount, hPairs, hCur⟩ := hinv
  by_cases hroll : 50 ≤ s.messageCount
  · have heq : handle_input content s =
        ⟨s.blockNumber + 1, 0, some s.files.length,
          s.files ++ [⟨s.blockNumber + 1, content, false⟩]⟩ := by
      simp [handle_input, start_new_block, hroll]
    rw [heq]
    refine ⟨?_, ?_, ?_, ?_⟩
    · intro f hf
      rcases List.mem_append.mp hf with h | h
      · exact Nat.le_succ_of_le (hBlocks f h)
      · simp at h; rw [h]
    · unfold pairsInBlock
      rw [List.countP_append]
      have h1 : s.files.countP
          (fun f => decide (f.block = s.blockNumber + 1) && f.hasOutput) = 0 := by
        rw [List.countP_eq_zero]
        intro f hf
        have := hBlocks f hf
        simp only [Bool.and_eq_true, decide_eq_true_eq, not_and]
        intro hb
        omega
      rw [h1]
      simp
    · intro b'
      unfold pairsInBlock
      rw [List.countP_append]
      have h2 : List.countP (fun f => decide (f.block = b') && f.hasOutput)
          [VFile.mk (s.blockNumber + 1) content false] = 0 := by simp
      rw [h2]
      exact hPairs b'
    · intro j hj
      simp only [Option.some.injEq] at hj
      subst hj
      refine ⟨by simp, ?_, ?_, by simp⟩
      · rw [getD_append_length]
      · rw [getD_append_length]
  · have heq : handle_input content s =
        ⟨s.blockNumber, s.messageCount, some s.files.length,
          s.files ++ [⟨s.blockNumber, content, false⟩]⟩ := by
      simp [handle_input, start_new_block, hroll]
    rw [heq]
    refine ⟨?_, ?_, ?_, ?_⟩
    · intro f hf
      rcases List.mem_append.mp hf with h | h
      · exact hBlocks f h
      · simp at h; rw [h]
    · unfold pairsInBlock
      rw [List.countP_append]
      have h2 : List.countP
          (fun f => decide (f.block = s.blockNumber) && f.hasOutput)
          [VFile.mk s.blockNumber content false] = 0 := by simp
      rw [h2]
      simpa using hCount
    · intro b'
      unfold pairsInBlock
      rw [List.countP_append]
      have h2 : List.countP (fun f => decide (f.block = b') && f.hasOutput)
          [VFile.mk s.blockNumber content false] = 0 := by simp
      rw [h2]
      exact hPairs b'
    · intro j hj
      simp only [Option.some.injEq] at hj
      subst hj
      refine ⟨by simp, ?_, ?_, by simp; omega⟩
      · rw [getD_append_length]
      · rw [getD_append_length]

theorem vinv_handle_output (content : String) (s : VState) (hinv : VInv s) :
    VInv (handle_output content s) := by
  obtain ⟨hBlocks, hCount, hPairs, hCur⟩ := hinv
  cases hcf : s.currentFile with
  | none =>
    rw [show handle_output content s = s from by
      unfold handle_output; rw [hcf]]
    exact ⟨hBlocks, hCount, hPairs, hCur⟩
  | some i =>
    obtain ⟨hlt, hblk, hout, hle⟩ := hCur i hcf
    set f := s.files.getD i vdefault with hf
    set f' : VFile :=
      { f with content := f.content ++ "\n\n" ++ content,
               hasOutput := true } with hf'
    have heq : handle_output content s =
        { s with files := s.files.set i f',
                 messageCount := s.messageCount + 1,
                 currentFile := none } := by
      simp only [handle_output, hcf]
      rw [if_pos hlt]
    rw [heq]
    have hOldFalse : ∀ b' : Nat,
        (decide (f.block = b') && f.hasOutput) = false := by
      intro b'
      simp [hout]
    have hSet : ∀ b', pairsInBlock b' (s.files.set i f') =
        pairsInBlock b' s.files + (if f.block = b' then 1 else 0) := by
      intro b'
      unfold pairsInBlock
      rw [countP_set_of_old_false _ _ _ i hlt (hOldFalse b')]
      by_cases hb : f.block = b' <;> simp [hf', hb]
    refine ⟨?_, ?_, ?_, ?_⟩
    · intro g hg
      rcases List.mem_or_eq_of_mem_set hg with h | h
      · exact hBlocks g h
      · rw [h, hf']
        exact le_of_eq hblk
    · show s.messageCount + 1 = pairsInBlock s.blockNumber (s.files.set i f')
      rw [hSet s.blockNumber, if_pos hblk, ← hCount]
    · intro b'
      show pairsInBlock b' (s.files.set i f') ≤ 50
      rw [hSet b']
      by_cases hb : f.block = b'
      · rw [if_pos hb]
        have h49 : pairsInBlock b' s.files ≤ 49 := by
          rw [← hb, hblk, ← hCount]
          exact hle
        omega
      · rw [if_neg hb]
        simpa using hPairs b'
    · intro j hj
      simp at hj

theorem vinv_vrun (evs : List VEvent) (s : VState) (hinv : VInv s) :
    VInv (vrun evs s) := by
  induction evs generalizing s with
  | nil => exact hinv
  | cons e evs ih =>
    rw [show vrun (e :: evs) s = vrun evs (vstep s e) from rfl]
    apply ih
    cases e with
    | input c => exact vinv_handle_input c s hinv
    | output c => exact vinv_handle_output c s hinv

/-- C7: a block never holds more than 50 completed pairs.  When the
current block already holds 50 pairs, the next `handle_input` first
starts a new block directory (block number +1, counter reset to 0) and
writes the turn file into that new block; below 50, the turn file stays
in the current block.  The invariant (including the ≤50 bound for every
block) holds for a fresh session and is preserved by any input/output
event sequence. -/
theorem verbatim_block_rollover :
    (∀ (s : VState) (content : String), 50 ≤ s.messageCount →
      handle_input content s =
        ⟨s.blockNumber + 1, 0, some s.files.length,
          s.files ++ [⟨s.blockNumber + 1, content, false⟩]⟩) ∧
    (∀ (s : VState) (content : String), s.messageCount < 50 →
      handle_input content s =
        ⟨s.blockNumber, s.messageCount, some s.files.length,
          s.files ++ [⟨s.blockNumber, content, false⟩]⟩) ∧
    VInv ⟨1, 0, none, []⟩ ∧
    (∀ (evs : List VEvent) (s : VState), VInv s → VInv (vrun evs s)) ∧
    (∀ s : VState, VInv s → ∀ b, pairsInBlock b s.files ≤ 50) := by
  refine ⟨?_, ?_, ?_, vinv_vrun, fun s h b => h.2.2.1 b⟩
  · intro s content h
    simp [handle_input, start_new_block, h]
  · intro s content h
    simp [handle_input, start_new_block, Nat.not_le.mpr h]
  · refine ⟨by simp, by simp [pairsInBlock], by simp [pairsInBlock], ?_⟩
    intro i hi
    cases hi

/-- Witness for C7: a session at 50 completed pairs rolls the 51st input
into block 2 with the counter reset; a fresh session keeps inputs in
block 1; a concrete event run preserves the invariant. -/
theorem verbatim_block_rollover_witness :
    (50 ≤ (VState.mk 1 50 none []).messageCount ∧
     handle_input "c" ⟨1, 50, none, []⟩ = ⟨2, 0, some 0, [⟨2, "c", false⟩]⟩) ∧
    ((VState.mk 1 0 none []).messageCount < 50 ∧
     handle_input "c" ⟨1, 0, none, []⟩ = ⟨1, 0, some 0, [⟨1, "c", false⟩]⟩) ∧
    VInv (vrun [.input "a", .output "b"] ⟨1, 0, none, []⟩) :=
  ⟨⟨by decide, verbatim_block_rollover.1 ⟨1, 50, none, []⟩ "c" (by decide)⟩,
   ⟨by decide, verbatim_block_rollover.2.1 ⟨1, 0, none, []⟩ "c" (by decide)⟩,
   verbatim_block_rollover.2.2.2.1 [.input "a", .output "b"] ⟨1, 0, none, []⟩
     verbatim_block_rollover.2.2.1⟩

/-! ## EpisodicMemoryManager (src/episodic_memory_manager.py)

The writer builds the entry file as one string from fixed tag chunks; the
parser reads it back with `readlines`, strips every line, and scans for
tags.  Text is embedded as `List Char`; `_generate_id` and
`datetime.now()` are I/O, so the entry id and timestamp are parameters of
the content builder. -/

/-- Split a character list at every newline (the line structure that
`readlines` exposes; the separators themselves are dropped here and the
code strips each line anyway). -/
def splitNl : List Char → List (List Char)
  | [] => [[]]
  | c :: cs =>
    if c = '\n' then [] :: splitNl cs
    else
      match splitNl cs with
      | [] => [[c]]
      | l :: ls => (c :: l) :: ls

/-- `f.readlines()` as a list of lines without their trailing newlines:
a final newline does not open an extra empty line. -/
def pyReadLines (cs : List Char) : List (List Char) :=
  if cs = [] then []
  else
    let ls := splitNl cs
    if ls.getLast? = some [] then ls.dropLast else ls

/-- The dictionary produced by `parse_entry_file` (the `filepath`
bookkeeping entry is omitted: the embedding parses content, not paths). -/
structure EntryData where
  id : Option (List Char) := none
  time : Option (List Char) := none
  mode : Option (List Char) := none
  links : Option (List Char) := none
  input : Option (List Char) := none
  think : Option (List Char) := none
  output : Option (List Char) := none
  summary_heading : Option (List Char) := none
  summary : Option (List Char) := none
  thinking_cycle : Option (List Char) := none
  deltas : Option (List Char) := none
  keywords : Option (List Char) := none
  topics : Option (List Char) := none
  deriving DecidableEq, Repr

/-- `_parse_block`: collect lines until the end tag; return the collected
lines and the lines after the end tag (the caller's `i += 1` lands
there).  A missing end tag consumes everything. -/
def parseBlock (endTag : List Char) : List (List Char) → List (List Char) × List (List Char)
  | [] => ([], [])
  | l :: ls =>
    if l = endTag then ([], ls)
    else
      let r := parseBlock endTag ls
      (l :: r.1, r.2)

/-- `"\n".join(...)` on lines. -/
def joinNl (ls : List (List Char)) : List Char := List.intercalate ['\n'] ls

/-- `",".join(...)` for the links line. -/
def joinComma (ls : List (List Char)) : List Char := List.intercalate [','] ls

/-- `str.startswith` on character lists. -/
def startsWithChars : List Char → List Char → Bool
  | _, [] => true
  | [], _ :: _ => false
  | c :: cs, p :: ps => c = p && startsWithChars cs ps

/-- `line.split(':', 1)[1]`: everything after the first colon (callers
only reach this after a `startswith('/tag:')` succeeded). -/
def colonRest : List Char → List Char
  | [] => []
  | c :: cs => if c = ':' then cs else colonRest cs

/-- `line.split(':', 1)[1].strip()`. -/
def afterColon (l : List Char) : List Char := pyStrip (colonRest l)

/-- The scan loop of `parse_entry_file`, with the elif chain in source
order.  The fuel counts loop iterations; the Python loop advances `i` by
at least one per iteration, so `lines.length` iterations always
suffice. -/
def parseLines : Nat → List (List Char) → EntryData → EntryData
  | 0, _, d => d
  | _ + 1, [], d => d
  | fuel + 1, l :: rest, d =>
    if l = [] then parseLines fuel rest d
    else if startsWithChars l "/id:".data then
      parseLines fuel rest { d with id := some (afterColon l) }
    else if startsWithChars l "/time:".data then
      parseLines fuel rest { d with time := some (afterColon l) }
    else if startsWithChars l "/mode:".data then
      parseLines fuel rest { d with mode := some (afterColon l) }
    else if startsWithChars l "/links:".data then
      parseLines fuel rest { d with links := some (afterColon l) }
    else if l = "/input".data then
      let r := parseBlock "/end_input".data rest
      parseLines fuel r.2 { d with input := some (joinNl r.1) }
    else if l = "/think".data then
      let r := parseBlock "/end_think".data rest
      parseLines fuel r.2 { d with think := some (joinNl r.1) }
    else if l = "/output".data then
      let r := parseBlock "/end_output".data rest
      parseLines fuel r.2 { d with output := some (joinNl r.1) }
    else if l = "/summary_heading".data then
      let r := parseBlock "/end_summary".data rest
      parseLines fuel r.2 { d with summary_heading := some (joinNl r.1) }
    else if l = "/summary".data then
      let r := parseBlock "/end_summary".data rest
      parseLines fuel r.2 { d with summary := some (joinNl r.1) }
    else if l = "/thinking_cycle".data then
      let r := parseBlock "/thinking_cycle_end".data rest
      parseLines fuel r.2 { d with thinking_cycle := some (joinNl r.1) }
    else if l = "/deltas".data then
      let r := parseBlock "/end_deltas".data rest
      parseLines fuel r.2 { d with deltas := some (joinNl r.1) }
    else if l = "/keywords".data then
      let r := parseBlock "/end_keywords".data rest
      parseLines fuel r.2 { d with keywords := some (joinNl r.1) }
    else if l = "/topics".data then
      let r := parseBlock "/end_topic".data rest
      parseLines fuel r.2 { d with topics := some (joinNl r.1) }
    else parseLines fuel rest d

/-- `parse_entry_file` on file content: strip every line, then scan. -/
def parse_entry_file (content : List Char) : EntryData :=
  let lines := (pyReadLines content).map pyStrip
  parseLines lines.length lines {}

/-- The file content built by `create_chat_entry`, chunk for chunk.
Optional arguments mirror the Python defaults; `if links:` style guards
are falsy for both `None` and an empty list/string. -/
def create_chat_entry_content (entry_id timeStr mode user_input model_output
    s_heading s_summary : List Char)
    (links : Option (List (List Char)) := none)
    (think_content : Option (List Char) := none)
    (thinking_cycle : Option (List Char) := none)
    (deltas : Option (List (List Char)) := none)
    (keywords : Option (List (List Char)) := none)
    (topics : Option (List (List Char)) := none) : List Char :=
  "/entry\n".data ++
  ("/id: ".data ++ entry_id ++ "\n".data) ++
  ("/time: ".data ++ timeStr ++ "\n".data) ++
  ("/mode: ".data ++ mode ++ "\n".data) ++
  (match links with
   | some (x :: xs) => "/links: ".data ++ joinComma (x :: xs) ++ "\n".data
   | _ => []) ++
  "\n/input\n".data ++ (user_input ++ "\n".data) ++ "/end_input\n".data ++
  (match think_content with
   | some (c :: cs) =>
     "\n/think\n".data ++ ((c :: cs) ++ "\n".data) ++ "/end_think\n".data
   | _ => []) ++
  "\n/output\n".data ++ (model_output ++ "\n".data) ++ "/end_output\n".data ++
  "\n/summary_heading\n".data ++ (s_heading ++ "\n".data) ++
    "/end_summary\n".data ++
  "\n/summary\n".data ++ (s_summary ++ "\n".data) ++ "/end_summary\n".data ++
  (match thinking_cycle with
   | some (c :: cs) =>
     "\n/thinking_cycle\n".data ++ ((c :: cs) ++ "\n".data) ++
       "/thinking_cycle_end\n".data
   | _ => []) ++
  (match deltas with
   | some (x :: xs) =>
     "\n/deltas\n".data ++ (joinNl (x :: xs) ++ "\n".data) ++
       "/end_deltas\n".data
   | _ => []) ++
  (match keywords with
   | some (x :: xs) =>
     "\n/keywords\n".data ++ (joinNl (x :: xs) ++ "\n".data) ++
       "/end_keywords\n".data
   | _ => []) ++
  (match topics with
   | some (x :: xs) =>
     "\n/topics\n".data ++ (joinNl (x :: xs) ++ "\n".data) ++
       "/end_topic\n".data
   | _ => []) ++
  "\n/end_entry\n".data

theorem splitNl_line (xs ys : List Char) (h : ∀ c ∈ xs, c ≠ '\n') :
    splitNl (xs ++ '\n' :: ys) = xs :: splitNl ys := by
  induction xs with
  | nil => simp [splitNl]
  | cons c cs ih =>
    have hc : c ≠ '\n' := h c (List.mem_cons_self c cs)
    have ih' := ih (fun d hd => h d (List.mem_cons_of_mem c hd))
    simp [splitNl, hc, ih']

theorem dropTrailingWs_append_nonws (l1 l2 : List Char) (c : Char)
    (cs : List Char) (hrev : l2.reverse = c :: cs) (hc : pyIsSpace c = false) :
    dropTrailingWs (l1 ++ l2) = l1 ++ l2 := by
  unfold dropTrailingWs
  rw [List.reverse_append, hrev, List.cons_append, List.dropWhile_cons,
    if_neg (by simp [hc])]
  rw [← List.cons_append, ← hrev, ← List.reverse_append, List.reverse_reverse]

theorem pyStrip_prefix_nonws (c : Char) (cs : List Char)
    (hc : pyIsSpace c = false) (x : List Char) (hx : x ≠ [])
    (hxw : ∀ d ∈ x, pyIsSpace d = false) :
    pyStrip ((c :: cs) ++ x) = (c :: cs) ++ x := by
  obtain ⟨d, ds, hrev⟩ : ∃ d ds, x.reverse = d :: ds := by
    cases hr : x.reverse with
    | nil => exact absurd (List.reverse_eq_nil_iff.mp hr) hx
    | cons d ds => exact ⟨d, ds, rfl⟩
  have hd : pyIsSpace d = false := by
    apply hxw
    have : d ∈ x.reverse := by rw [hrev]; exact List.mem_cons_self d ds
    exact List.mem_reverse.mp this
  have h1 : dropLeadingWs ((c :: cs) ++ x) = (c :: cs) ++ x := by
    unfold dropLeadingWs
    rw [List.cons_append, List.dropWhile_cons, if_neg (by simp [hc])]
  unfold pyStrip
  rw [h1]
  exact dropTrailingWs_append_nonws (c :: cs) x d ds hrev hd

/-- C6: round trip.  For an entry written with mode `"m"`, input `"i"`,
output `"o"`, summary heading `"h"` and summary `"s"` (optional fields
omitted), parsing the produced file content recovers exactly those five
fields, for every generated id and timestamp (both nonempty and free of
whitespace, as `_generate_id` and `isoformat` produce). -/
theorem episodic_round_trip (idStr timeStr : List Char)
    (hidne : idStr ≠ []) (hidw : ∀ c ∈ idStr, pyIsSpace c = false)
    (htmne : timeStr ≠ []) (htmw : ∀ c ∈ timeStr, pyIsSpace c = false) :
    (parse_entry_file (create_chat_entry_content idStr timeStr "m".data
        "i".data "o".data "h".data "s".data)).mode = some "m".data ∧
    (parse_entry_file (create_chat_entry_content idStr timeStr "m".data
        "i".data "o".data "h".data "s".data)).input = some "i".data ∧
    (parse_entry_file (create_chat_entry_content idStr timeStr "m".data
        "i".data "o".data "h".data "s".data)).output = some "o".data ∧
    (parse_entry_file (create_chat_entry_content idStr timeStr "m".data
        "i".data "o".data "h".data "s".data)).summary_heading =
      some "h".data ∧
    (parse_entry_file (create_chat_entry_content idStr timeStr "m".data
        "i".data "o".data "h".data "s".data)).summary = some "s".data := by
  have hidnl : ∀ c ∈ idStr, c ≠ '\n' := by
    intro c hcm heq
    subst heq
    simpa [pyIsSpace] using hidw _ hcm
  have htmnl : ∀ c ∈ timeStr, c ≠ '\n' := by
    intro c hcm heq
    subst heq
    simpa [pyIsSpace] using htmw _ hcm
  have hc1 : create_chat_entry_content idStr timeStr "m".data "i".data
      "o".data "h".data "s".data =
      "/entry".data ++ '\n' ::
        (("/id: ".data ++ idStr) ++ '\n' ::
          (("/time: ".data ++ timeStr) ++ '\n' ::
            ("/mode: m\n\n/input\ni\n/end_input\n\n/output\no\n/end_output\n\n/summary_heading\nh\n/end_summary\n\n/summary\ns\n/end_summary\n\n/end_entry\n").data)) := by
    unfold create_chat_entry_content
    simp [List.append_assoc]
  have hsplit : splitNl (create_chat_entry_content idStr timeStr "m".data
      "i".data "o".data "h".data "s".data) =
      "/entry".data :: ("/id: ".data ++ idStr) ::
        ("/time: ".data ++ timeStr) ::
        ["/mode: m".data, [], "/input".data, "i".data, "/end_input".data,
         [], "/output".data, "o".data, "/end_output".data, [],
         "/summary_heading".data, "h".data, "/end_summary".data, [],
         "/summary".data, "s".data, "/end_summary".data, [],
         "/end_entry".data, []] := by
    rw [hc1]
    rw [splitNl_line "/entry".data _ (by decide)]
    rw [splitNl_line ("/id: ".data ++ idStr) _ ?hid]
    rw [splitNl_line ("/time: ".data ++ timeStr) _ ?htm]
    · rfl
    case hid =>
      have hlit : ∀ c ∈ "/id: ".data, c ≠ '\n' := by decide
      intro c hcm
      rcases List.mem_append.mp hcm with h1 | h1
      · exact hlit c h1
      · exact hidnl c h1
    case htm =>
      have hlit : ∀ c ∈ "/time: ".data, c ≠ '\n' := by decide
      intro c hcm
      rcases List.mem_append.mp hcm with h1 | h1
      · exact hlit c h1
      · exact htmnl c h1
  have hne : create_chat_entry_content idStr timeStr "m".data "i".data
      "o".data "h".data "s".data ≠ [] := by
    rw [hc1]
    simp
  have hlines : pyReadLines (create_chat_entry_content idStr timeStr
      "m".data "i".data "o".data "h".data "s".data) =
      "/entry".data :: ("/id: ".data ++ idStr) ::
        ("/time: ".data ++ timeStr) ::
        ["/mode: m".data, [], "/input".data, "i".data, "/end_input".data,
         [], "/output".data, "o".data, "/end_output".data, [],
         "/summary_heading".data, "h".data, "/end_summary".data, [],
         "/summary".data, "s".data, "/end_summary".data, [],
         "/end_entry".data] := by
    unfold pyReadLines
    rw [if_neg hne, hsplit]
    rfl
  have hstripid : pyStrip ("/id: ".data ++ idStr) = "/id: ".data ++ idStr :=
    pyStrip_prefix_nonws '/' "id: ".data (by decide) idStr hidne hidw
  have hstriptm : pyStrip ("/time: ".data ++ timeStr) =
      "/time: ".data ++ timeStr :=
    pyStrip_prefix_nonws '/' "time: ".data (by decide) timeStr htmne htmw
  have hmap : ((pyReadLines (create_chat_entry_content idStr timeStr
      "m".data "i".data "o".data "h".data "s".data)).map pyStrip) =
      "/entry".data :: ("/id: ".data ++ idStr) ::
        ("/time: ".data ++ timeStr) ::
        ["/mode: m".data, [], "/input".data, "i".data, "/end_input".data,
         [], "/output".data, "o".data, "/end_output".data, [],
         "/summary_heading".data, "h".data, "/end_summary".data, [],
         "/summary".data, "s".data, "/end_summary".data, [],
         "/end_entry".data] := by
    rw [hlines]
    simp only [List.map_cons, List.map_nil, hstripid, hstriptm]
    rfl
  have hparse : parse_entry_file (create_chat_entry_content idStr timeStr
      "m".data "i".data "o".data "h".data "s".data) =
      parseLines 22
        ("/entry".data :: ("/id: ".data ++ idStr) ::
          ("/time: ".data ++ timeStr) ::
          ["/mode: m".data, [], "/input".data, "i".data, "/end_input".data,
           [], "/output".data, "o".data, "/end_output".data, [],
           "/summary_heading".data, "h".data, "/end_summary".data, [],
           "/summary".data, "s".data, "/end_summary".data, [],
           "/end_entry".data]) {} := by
    unfold parse_entry_file
    rw [hmap]
    rfl
  rw [hparse]
  have hsw1 : startsWithChars ("/id: ".data ++ idStr) "/id:".data = true := by
    rfl
  have hsw2 : startsWithChars ("/time: ".data ++ timeStr) "/id:".data =
      false := by rfl
  have hsw3 : startsWithChars ("/time: ".data ++ timeStr) "/time:".data =
      true := by rfl
  have hne2 : "/id: ".data ++ idStr ≠ [] := by simp
  have hne3 : "/time: ".data ++ timeStr ≠ [] := by simp
  simp [parseLines, parseBlock, joinNl, hsw1, hsw2, hsw3, hne2, hne3,
    startsWithChars]
  decide

/-- Witness for C6 at a concrete generated id and timestamp. -/
theorem episodic_round_trip_witness :
    ("20250101-120000-123_abc123".data ≠ ([] : List Char) ∧
     (∀ c ∈ "20250101-120000-123_abc123".data, pyIsSpace c = false) ∧
     "2025-01-01T12:00:00.123456".data ≠ ([] : List Char) ∧
     (∀ c ∈ "2025-01-01T12:00:00.123456".data, pyIsSpace c = false)) ∧
    ((parse_entry_file (create_chat_entry_content
        "20250101-120000-123_abc123".data "2025-01-01T12:00:00.123456".data
        "m".data "i".data "o".data "h".data "s".data)).mode = some "m".data ∧
     (parse_entry_file (create_chat_entry_content
        "20250101-120000-123_abc123".data "2025-01-01T12:00:00.123456".data
        "m".data "i".data "o".data "h".data "s".data)).input = some "i".data ∧
     (parse_entry_file (create_chat_entry_content
        "20250101-120000-123_abc123".data "2025-01-01T12:00:00.123456".data
        "m".data "i".data "o".data "h".data "s".data)).output = some "o".data ∧
     (parse_entry_file (create_chat_entry_content
        "20250101-120000-123_abc123".data "2025-01-01T12:00:00.123456".data
        "m".data "i".data "o".data "h".data "s".data)).summary_heading =
       some "h".data ∧
     (parse_entry_file (create_chat_entry_content
        "20250101-120000-123_abc123".data "2025-01-01T12:00:00.123456".data
        "m".data "i".data "o".data "h".data "s".data)).summary =
       some "s".data) :=
  ⟨⟨by decide, by decide, by decide, by decide⟩,
   episodic_round_trip "20250101-120000-123_abc123".data
     "2025-01-01T12:00:00.123456".data (by decide) (by decide) (by decide)
     (by decide)⟩

end LYRN
